import Mathlib

/-!
Shallow embedding of the wool-store repository: the in-memory key-value
Store (src/store.js) and its PubSub router (src/pubsub.js), together with
theorems checking the natural-language specification against the code.

Modelling conventions:
- A JS `Map` is an insertion-ordered association list: `set` on an existing
  key updates the value in place (keeping the position), `set` on a fresh key
  appends, `delete` removes the entry.  JS maps never hold duplicate keys, so
  removal is modelled by filtering the key out.
- A JS `Set` is an insertion-ordered duplicate-free list.
- The Store's own `db` map is modelled with explicit holes
  (`List (Option (String × α))`) because `find` hands out a *live* iterator
  over it: per the ECMAScript specification, `Map.prototype.delete` empties
  the slot in the entry list (iterators skip holes) and re-insertion appends,
  so an outstanding iterator index stays meaningful across mutations.
- Subscriber callbacks are opaque identifiers of a type `γ`; a notification
  is recorded as a `Delivery` (recipient callback, key, value, trigger kind)
  and every operation returns the ordered list of deliveries it performed.
  Published values have type `Option α`, where `none` models the JS value
  `undefined` (what `Map.get` yields for an absent key).
- JS is untyped: `Store.del` passes the store key into the source slot of
  `PubSub.unsub` and the stored value into its key slot.  The router is
  therefore parameterised over source and key types, and the Store
  instantiates the router's key type with `JsVal α`, the type of JS values
  that actually flow into that position (key strings or raw stored values).
- Fallible operations (`del`, `pub`, `sub`, `unsub` can `throw StoreError`
  per the spec) return `Except StoreError`; an `Except.error` models a raised
  `StoreError` and, as in the JS methods which throw before mutating, carries
  no successor state.
-/

/-- Trigger kinds, from `PubSubType` in src/pubsub.js. -/
inductive PubSubType where
  | sub
  | pub
  | set
  | del
deriving DecidableEq, Repr

/-- A JS value reaching the router's key-typed slots: either a key string or
a raw stored value (the buggy `unsub(k, v)` call in `Store.del` sends a
stored value there). -/
inductive JsVal (α : Type) where
  | str (s : String)
  | raw (a : α)
deriving DecidableEq, Repr

/-- `Map.prototype.get`: first (unique) binding of `k`. -/
def mapGet [DecidableEq κ] : List (κ × β) → κ → Option β
  | [], _ => none
  | (k', b) :: t, k => if k' = k then some b else mapGet t k

/-- `Map.prototype.has`. -/
def mapHas [DecidableEq κ] (l : List (κ × β)) (k : κ) : Bool :=
  (mapGet l k).isSome

/-- `Map.prototype.set`: update in place if present, else append. -/
def mapSet [DecidableEq κ] : List (κ × β) → κ → β → List (κ × β)
  | [], k, b => [(k, b)]
  | (k', b') :: t, k, b =>
    if k' = k then (k', b) :: t else (k', b') :: mapSet t k b

/-- `Map.prototype.delete`.  JS maps have no duplicate keys, so dropping
every binding of `k` coincides with removing the one entry. -/
def mapDelete [DecidableEq κ] : List (κ × β) → κ → List (κ × β)
  | [], _ => []
  | (k', b') :: t, k =>
    if k' = k then mapDelete t k else (k', b') :: mapDelete t k

/-- `Set.prototype.add`: no-op when present, else append. -/
def setAdd [DecidableEq κ] (s : List κ) (k : κ) : List κ :=
  if k ∈ s then s else s ++ [k]

/-- `Set.prototype.delete`. -/
def setDelete [DecidableEq κ] : List κ → κ → List κ
  | [], _ => []
  | x :: t, k => if x = k then setDelete t k else x :: setDelete t k

/-- The PubSub router state (class `PubSub`, src/pubsub.js): a global
source-to-callback map, a per-key source-to-callback map, and a per-source
set of keys.  `σ` sources, `κ` keys, `γ` opaque callbacks. -/
structure PubSub (σ κ γ : Type) where
  global : List (σ × γ)
  k_src_cb : List (κ × List (σ × γ))
  src_ks : List (σ × List κ)
deriving Repr

/-- `new PubSub()`. -/
def PubSub.empty : PubSub σ κ γ := ⟨[], [], []⟩

/-- `PubSub.hasGlobal`. -/
def PubSub.hasGlobal [DecidableEq σ] (ps : PubSub σ κ γ) (src : σ) : Bool :=
  mapHas ps.global src

/-- `PubSub.subGlobal`. -/
def PubSub.subGlobal [DecidableEq σ] (ps : PubSub σ κ γ) (src : σ) (cb : γ) :
    PubSub σ κ γ :=
  { ps with global := mapSet ps.global src cb }

/-- `PubSub.unsubGlobal`. -/
def PubSub.unsubGlobal [DecidableEq σ] (ps : PubSub σ κ γ) (src : σ) :
    PubSub σ κ γ :=
  { ps with global := mapDelete ps.global src }

/-- `PubSub.has`: the three-structure cross-check
`k_src_cb.has(k) && src_ks.has(src) && src_ks.get(src).has(k)`. -/
def PubSub.has [DecidableEq σ] [DecidableEq κ] (ps : PubSub σ κ γ)
    (src : σ) (k : κ) : Bool :=
  mapHas ps.k_src_cb k && mapHas ps.src_ks src &&
    (mapGet ps.src_ks src).elim false (fun ks => decide (k ∈ ks))

/-- `PubSub.sub`: insert/replace the callback in `k_src_cb[k]` (creating the
inner map when absent) and record `k` in `src_ks[src]` (creating the set when
absent). -/
def PubSub.sub [DecidableEq σ] [DecidableEq κ] (ps : PubSub σ κ γ)
    (src : σ) (k : κ) (cb : γ) : PubSub σ κ γ :=
  { ps with
    k_src_cb :=
      mapSet ps.k_src_cb k (mapSet ((mapGet ps.k_src_cb k).getD []) src cb)
    src_ks :=
      mapSet ps.src_ks src (setAdd ((mapGet ps.src_ks src).getD []) k) }

/-- `PubSub.unsub`: delete `src` from `k_src_cb[k]` when that inner map
exists (the possibly emptied inner map stays registered, as in JS), and
delete `k` from `src_ks[src]` when that set exists. -/
def PubSub.unsub [DecidableEq σ] [DecidableEq κ] (ps : PubSub σ κ γ)
    (src : σ) (k : κ) : PubSub σ κ γ :=
  { ps with
    k_src_cb :=
      match mapGet ps.k_src_cb k with
      | some srcCb => mapSet ps.k_src_cb k (mapDelete srcCb src)
      | none => ps.k_src_cb
    src_ks :=
      match mapGet ps.src_ks src with
      | some ks => mapSet ps.src_ks src (setDelete ks k)
      | none => ps.src_ks }

/-- `PubSub.unsubEveryWhere`: drop the global subscription, then `unsub` for
every key in a snapshot (`Array.from`) of the source's key set. -/
def PubSub.unsubEveryWhere [DecidableEq σ] [DecidableEq κ]
    (ps : PubSub σ κ γ) (src : σ) : PubSub σ κ γ :=
  let ps1 := ps.unsubGlobal src
  match mapGet ps1.src_ks src with
  | some ks => ks.foldl (fun acc k => acc.unsub src k) ps1
  | none => ps1

/-- One notification: the invoked callback together with the
`(key, value, triggerKind)` arguments it received. -/
structure Delivery (κ υ γ : Type) where
  cb : γ
  key : κ
  val : υ
  kind : PubSubType
deriving DecidableEq, Repr

/-- `PubSub.pub`: invoke every global callback (in registration order), then
every callback scoped to `k` (in registration order).  The state is not
touched; the returned list records the invocations in order. -/
def PubSub.pub [DecidableEq κ] (ps : PubSub σ κ γ) (k : κ) (v : υ)
    (t : PubSubType) : List (Delivery κ υ γ) :=
  (ps.global.map fun sc => ⟨sc.2, k, v, t⟩) ++
    match mapGet ps.k_src_cb k with
    | some srcCb => srcCb.map fun sc => ⟨sc.2, k, v, t⟩
    | none => []

/-- `PubSub.pubTo`: invoke exactly the callback registered for `(src, k)`.
`none` models the TypeError the JS code would hit when no such registration
exists (it reads `k_src_cb.get(k).get(src)` unguarded). -/
def PubSub.pubTo [DecidableEq σ] [DecidableEq κ] (ps : PubSub σ κ γ)
    (src : σ) (k : κ) (v : υ) (t : PubSubType) : Option (Delivery κ υ γ) :=
  match mapGet ps.k_src_cb k with
  | some srcCb =>
    match mapGet srcCb src with
    | some cb => some ⟨cb, k, v, t⟩
    | none => none
  | none => none

/-- The error raised by the Store (class `StoreError`, src/store-error.js):
a machine-readable message plus the offending key. -/
structure StoreError where
  msg : String
  key : String
deriving DecidableEq, Repr

/-- The Store's entry list, with ECMAScript `Map` hole semantics: `delete`
empties the slot (`none`) so that outstanding `entries()` iterators keep
their position, and re-insertion appends at the end. -/
abbrev DbData (α : Type) : Type := List (Option (String × α))

/-- `Map.prototype.has` on the entry list (holes are skipped). -/
def dbHas (db : DbData α) (k : String) : Bool :=
  db.any fun e => e.elim false (fun p => decide (p.1 = k))

/-- `Map.prototype.get` on the entry list. -/
def dbGet : DbData α → String → Option α
  | [], _ => none
  | none :: t, k => dbGet t k
  | some (k', v) :: t, k => if k' = k then some v else dbGet t k

/-- `Map.prototype.set` on the entry list: update in place when the key is
present, else append a fresh slot. -/
def dbSet : DbData α → String → α → DbData α
  | [], k, v => [some (k, v)]
  | none :: t, k, v => none :: dbSet t k v
  | some (k', v') :: t, k, v =>
    if k' = k then some (k', v) :: t else some (k', v') :: dbSet t k v

/-- `Map.prototype.delete` on the entry list: empty the slot, keeping it as a
hole so iterator indices stay stable. -/
def dbDelete : DbData α → String → DbData α
  | [], _ => []
  | none :: t, k => none :: dbDelete t k
  | some (k', v') :: t, k =>
    if k' = k then none :: t else some (k', v') :: dbDelete t k

/-- The current entries in insertion order (what a full, uninterrupted
traversal of `db.entries()` visits). -/
def dbEntries (db : DbData α) : List (String × α) :=
  db.filterMap id

/-- The keys of the current entries, in insertion order. -/
def dbKeys (db : DbData α) : List String :=
  (db.filterMap id).map Prod.fst

/-- The JS `Map` invariant the entry list always enjoys: no key is bound
twice.  Every Store reachable through the public operations satisfies it
(see `applyStoreOps_dbNodup`). -/
abbrev dbNodup (db : DbData α) : Prop :=
  (dbKeys db).Nodup

/-- The Store (class `Store`, src/store.js): the entry map plus its router.
Router sources are the strings callers pass; router keys are `JsVal α`
because `Store.del` feeds a stored value into that slot. -/
structure Store (α γ : Type) where
  db : DbData α
  pubsub : PubSub String (JsVal α) γ

/-- `Store.build` / `new Store()`. -/
def Store.build : Store α γ := ⟨[], PubSub.empty⟩

/-- `Store.has`. -/
def Store.has (s : Store α γ) (k : String) : Bool :=
  dbHas s.db k

/-- `Store.get`; `none` is the JS `undefined` returned for an absent key. -/
def Store.get (s : Store α γ) (k : String) : Option α :=
  dbGet s.db k

/-- The deliveries a Store operation performs. -/
abbrev Trace (α γ : Type) : Type := List (Delivery (JsVal α) (Option α) γ)

/-- `Store.set`: write the entry, then publish `(k, v)` with kind `set` to
the router state as it stood at the call.  No failure path exists in the
source, so the result is a plain pair. -/
def Store.set [DecidableEq α] (s : Store α γ) (k : String) (v : α) :
    Store α γ × Trace α γ :=
  (⟨dbSet s.db k v, s.pubsub⟩,
    s.pubsub.pub (JsVal.str k) (some v) PubSubType.set)

/-- `Store.del`: throw when the key is absent (before touching any state);
otherwise capture the value, empty the entry, publish `(k, v)` with kind
`del` to the pre-cleanup router, then call `pubsub.unsub(k, v)` — note the
arguments: the key lands in the router's *source* slot and the value in its
*key* slot, exactly as in the source. -/
def Store.del [DecidableEq α] (s : Store α γ) (k : String) :
    Except StoreError (Store α γ × Trace α γ) :=
  if dbHas s.db k then
    match dbGet s.db k with
    | some v =>
      Except.ok
        (⟨dbDelete s.db k, s.pubsub.unsub k (JsVal.raw v)⟩,
          s.pubsub.pub (JsVal.str k) (some v) PubSubType.del)
    | none => Except.error ⟨"store.error.delete.key.not.exists", k⟩
  else Except.error ⟨"store.error.delete.key.not.exists", k⟩

/-- `Store.pub`: read the current value (possibly `undefined`) and publish it
with kind `pub`.  The source contains no throw and no mutation; the
`Except` result type only records that callers expect a possible
`StoreError`. -/
def Store.pub [DecidableEq α] (s : Store α γ) (k : String) :
    Except StoreError (Store α γ × Trace α γ) :=
  Except.ok (s, s.pubsub.pub (JsVal.str k) (dbGet s.db k) PubSubType.pub)

/-- `Store.sub`: throw when the key is absent; otherwise register/replace the
scoped subscription and, when `now` is set, deliver the current value with
kind `sub` through `pubTo` (which reaches only this callback).  The inner
`none` branch mirrors the impossible `pubTo` miss right after registering. -/
def Store.sub [DecidableEq α] (s : Store α γ) (src : String) (k : String)
    (cb : γ) (now : Bool) : Except StoreError (Store α γ × Trace α γ) :=
  if dbHas s.db k then
    if now then
      match
        (s.pubsub.sub src (JsVal.str k) cb).pubTo src (JsVal.str k)
          (dbGet s.db k) PubSubType.sub with
      | some d => Except.ok (⟨s.db, s.pubsub.sub src (JsVal.str k) cb⟩, [d])
      | none => Except.ok (⟨s.db, s.pubsub.sub src (JsVal.str k) cb⟩, [])
    else Except.ok (⟨s.db, s.pubsub.sub src (JsVal.str k) cb⟩, [])
  else Except.error ⟨"store.error.sub.key.not.exists(k)", k⟩

/-- `Store.unsub`: throw when the key is absent, else forward to the
router's tolerant `unsub`. -/
def Store.unsub [DecidableEq α] (s : Store α γ) (src : String) (k : String) :
    Except StoreError (Store α γ × Trace α γ) :=
  if dbHas s.db k then
    Except.ok (⟨s.db, s.pubsub.unsub src (JsVal.str k)⟩, [])
  else Except.error ⟨"store.error.unsub.key.not.exists(k)", k⟩

/-- `Store.hasSub`. -/
def Store.hasSub [DecidableEq α] (s : Store α γ) (src : String) (k : String) :
    Bool :=
  s.pubsub.has src (JsVal.str k)

/-- `Store.hasSubGlobal`. -/
def Store.hasSubGlobal (s : Store α γ) (src : String) : Bool :=
  s.pubsub.hasGlobal src

/-- `Store.subGlobal`. -/
def Store.subGlobal (s : Store α γ) (src : String) (cb : γ) : Store α γ :=
  { s with pubsub := s.pubsub.subGlobal src cb }

/-- `Store.unsubGlobal`. -/
def Store.unsubGlobal (s : Store α γ) (src : String) : Store α γ :=
  { s with pubsub := s.pubsub.unsubGlobal src }

/-- `Store.unsubEveryWhere`. -/
def Store.unsubEveryWhere [DecidableEq α] (s : Store α γ) (src : String) :
    Store α γ :=
  { s with pubsub := s.pubsub.unsubEveryWhere src }

/-- The selector argument of `Store.find`: omitted, a RegExp (modelled by its
compiled key test, since the source only ever calls `test` on the key), or a
predicate over the (key, mapped value) pair. -/
inductive Query (β : Type) where
  | undef
  | regex (test : String → Bool)
  | pred (p : String × β → Bool)

/-- The selector normalisation at the top of `Store.find`: an omitted
selector accepts everything and a RegExp is tested against the key only. -/
def normQ : Query β → (String × β → Bool)
  | Query.undef => fun _ => true
  | Query.regex t => fun kv => t kv.1
  | Query.pred p => p

/-- One `next()` step of the object `Store.find` returns, scanning the
remaining slots of the live entry list: skip holes, map each value with `f`,
and stop at the first pair the (normalised) selector accepts.  Returns the
yielded pair and how many slots were consumed. -/
def scanQ (q : String × β → Bool) (f : α → β) :
    List (Option (String × α)) → Option ((String × β) × Nat)
  | [] => none
  | none :: t => (scanQ q f t).map fun r => (r.1, r.2 + 1)
  | some (k, v) :: t =>
    if q (k, f v) then some ((k, f v), 1)
    else (scanQ q f t).map fun r => (r.1, r.2 + 1)

/-- `next()` on the iterator `Store.find` returned, with the iterator
positioned at slot `i` of the *current* entry list `db` (the iterator is
live: it holds an index into the store's map data, not a snapshot). -/
def findNext (db : DbData α) (q : String × β → Bool) (f : α → β) (i : Nat) :
    Option ((String × β) × Nat) :=
  (scanQ q f (db.drop i)).map fun r => (r.1, i + r.2)

/-- Repeatedly call `findNext` until exhaustion, collecting the yields; the
fuel always suffices because every step consumes at least one slot. -/
def drainFindGo (db : DbData α) (q : String × β → Bool) (f : α → β) :
    Nat → Nat → List (String × β)
  | 0, _ => []
  | fuel + 1, i =>
    match findNext db q f i with
    | none => []
    | some (kv, i') => kv :: drainFindGo db q f fuel i'

/-- Fully consume, against the current entry list `db`, the one-shot
sequence returned by `Store.find`, starting from iterator position `i`. -/
def drainFind (db : DbData α) (q : String × β → Bool) (f : α → β) (i : Nat) :
    List (String × β) :=
  drainFindGo db q f (db.length - i) i

/-- The matching entries of `l`, in order: values mapped by `f` before the
selector sees the pair. -/
def matchedEntries (l : List (Option (String × α))) (q : String × β → Bool)
    (f : α → β) : List (String × β) :=
  ((l.filterMap id).map fun e => (e.1, f e.2)).filter q

/-- `Store.findOne`: one `next()` on `find(q)` (identity mapper), unwrapping
the value, `none` (undefined) when the first step is already done. -/
def Store.findOne (s : Store α γ) (q : Query α) : Option α :=
  (findNext s.db (normQ q) (fun v => v) 0).map fun r => r.1.2

/-- The single per-key lookup: is `src` registered in `k`'s callback map. -/
def subInKcb [DecidableEq σ] [DecidableEq κ] (ps : PubSub σ κ γ) (src : σ)
    (k : κ) : Bool :=
  (mapGet ps.k_src_cb k).elim false fun m => mapHas m src

/-- The per-source lookup: is `k` recorded in `src`'s key set. -/
def keyInSrcKs [DecidableEq σ] [DecidableEq κ] (ps : PubSub σ κ γ) (src : σ)
    (k : κ) : Bool :=
  (mapGet ps.src_ks src).elim false fun ks => decide (k ∈ ks)

/-- Cross-mapping consistency of the router's bookkeeping: for every source
and key, the per-key callback map and the per-source key set agree. -/
def InvPS [DecidableEq σ] [DecidableEq κ] (ps : PubSub σ κ γ) : Prop :=
  ∀ src k, subInKcb ps src k = keyInSrcKs ps src k

/-- One router call, with arbitrary arguments. -/
inductive PubSubOp (σ κ γ υ : Type) where
  | subGlobal (src : σ) (cb : γ)
  | unsubGlobal (src : σ)
  | sub (src : σ) (k : κ) (cb : γ)
  | unsub (src : σ) (k : κ)
  | unsubEveryWhere (src : σ)
  | pub (k : κ) (v : υ) (t : PubSubType)
  | pubTo (src : σ) (k : κ) (v : υ) (t : PubSubType)

/-- The state effect of one router call.  `pub` and `pubTo` only invoke
callbacks (opaque here); they leave the bookkeeping untouched. -/
def applyOp [DecidableEq σ] [DecidableEq κ] (ps : PubSub σ κ γ) :
    PubSubOp σ κ γ υ → PubSub σ κ γ
  | PubSubOp.subGlobal src cb => ps.subGlobal src cb
  | PubSubOp.unsubGlobal src => ps.unsubGlobal src
  | PubSubOp.sub src k cb => ps.sub src k cb
  | PubSubOp.unsub src k => ps.unsub src k
  | PubSubOp.unsubEveryWhere src => ps.unsubEveryWhere src
  | PubSubOp.pub _ _ _ => ps
  | PubSubOp.pubTo _ _ _ _ => ps

/-- The router state reached from the empty router by a call sequence. -/
def applyOps [DecidableEq σ] [DecidableEq κ] (ops : List (PubSubOp σ κ γ υ)) :
    PubSub σ κ γ :=
  ops.foldl applyOp PubSub.empty

/-- One public Store call, with arbitrary arguments. -/
inductive StoreOp (α γ : Type) where
  | set (k : String) (v : α)
  | del (k : String)
  | pub (k : String)
  | sub (src : String) (k : String) (cb : γ) (now : Bool)
  | unsub (src : String) (k : String)
  | subGlobal (src : String) (cb : γ)
  | unsubGlobal (src : String)
  | unsubEveryWhere (src : String)

/-- The state effect of one public Store call; a raised `StoreError` leaves
the state as it was. -/
def applyStoreOp [DecidableEq α] (s : Store α γ) : StoreOp α γ → Store α γ
  | StoreOp.set k v => (s.set k v).1
  | StoreOp.del k =>
    match s.del k with
    | Except.ok r => r.1
    | Except.error _ => s
  | StoreOp.pub k =>
    match s.pub k with
    | Except.ok r => r.1
    | Except.error _ => s
  | StoreOp.sub src k cb now =>
    match s.sub src k cb now with
    | Except.ok r => r.1
    | Except.error _ => s
  | StoreOp.unsub src k =>
    match s.unsub src k with
    | Except.ok r => r.1
    | Except.error _ => s
  | StoreOp.subGlobal src cb => s.subGlobal src cb
  | StoreOp.unsubGlobal src => s.unsubGlobal src
  | StoreOp.unsubEveryWhere src => s.unsubEveryWhere src

/-- The Store state reached from `Store.build` by a public call sequence. -/
def applyStoreOps [DecidableEq α] (ops : List (StoreOp α γ)) : Store α γ :=
  ops.foldl applyStoreOp Store.build

/-! Concrete stores (values `Nat`, callback identifiers `Nat`) used by the
witnesses and counterexamples below. -/

/-- A store holding the single entry `a ↦ 1` and no subscriptions. -/
def storeA : Store Nat Nat := (Store.set Store.build "a" 1).1

/-- `storeA` after `sub("s", "a", cb 0, false)`: one scoped subscription. -/
def storeASub : Store Nat Nat :=
  match Store.sub storeA "s" "a" 0 false with
  | Except.ok r => r.1
  | Except.error _ => storeA

/-- `storeA` after `subGlobal("g", cb 9)`: one global subscription. -/
def storeAGlob : Store Nat Nat := Store.subGlobal storeA "g" 9

/-- `storeA` after a later `set("b", 2)`. -/
def storeAB : Store Nat Nat := (Store.set storeA "b" 2).1

/-- The store `Store.del storeASub "a"` produces. -/
def storeASubDel : Store Nat Nat :=
  match Store.del storeASub "a" with
  | Except.ok r => r.1
  | Except.error _ => storeASub

/-- The deliveries `Store.del storeASub "a"` performs. -/
def delTraceA : Trace Nat Nat :=
  match Store.del storeASub "a" with
  | Except.ok r => r.2
  | Except.error _ => []

/-- The store `Store.unsub storeASub "s" "a"` produces. -/
def storeASubUnsub : Store Nat Nat :=
  match Store.unsub storeASub "s" "a" with
  | Except.ok r => r.1
  | Except.error _ => storeASub

/-- A router with one global subscriber `g ↦ cb 9` and one subscriber
`s ↦ cb 7` scoped to key `k`. -/
def psW : PubSub String String Nat :=
  (PubSub.subGlobal PubSub.empty "g" 9).sub "s" "k" 7

/-! ### Association-list and set lemmas -/

theorem mapGet_mapSet [DecidableEq κ] (l : List (κ × β)) (k k' : κ) (b : β) :
    mapGet (mapSet l k b) k' = if k = k' then some b else mapGet l k' := by
  induction l with
  | nil => rfl
  | cons p t ih =>
    obtain ⟨k₀, b₀⟩ := p
    by_cases h0 : k₀ = k
    · subst h0
      by_cases h1 : k₀ = k'
      · subst h1
        simp [mapSet, mapGet]
      · simp [mapSet, mapGet, h1]
    · by_cases h1 : k₀ = k'
      · subst h1
        have hkk : ¬k = k₀ := fun hc => h0 hc.symm
        simp [mapSet, mapGet, h0, hkk]
      · simp [mapSet, mapGet, h0, h1, ih]

theorem mapGet_mapDelete [DecidableEq κ] (l : List (κ × β)) (k k' : κ) :
    mapGet (mapDelete l k) k' = if k' = k then none else mapGet l k' := by
  induction l with
  | nil => simp [mapDelete, mapGet]
  | cons p t ih =>
    obtain ⟨k₀, b₀⟩ := p
    by_cases h0 : k₀ = k
    · subst h0
      by_cases h1 : k' = k₀
      · subst h1
        simp [mapDelete, ih]
      · have h2 : ¬k₀ = k' := fun hc => h1 hc.symm
        simp [mapDelete, mapGet, ih, h1, h2]
    · by_cases h1 : k₀ = k'
      · subst h1
        simp [mapDelete, mapGet, h0, fun hc => h0 (hc : k₀ = k)]
      · simp [mapDelete, mapGet, h0, h1, ih]

theorem mapHas_mapDelete [DecidableEq κ] (l : List (κ × β)) (k k' : κ) :
    mapHas (mapDelete l k) k' = if k' = k then false else mapHas l k' := by
  simp only [mapHas, mapGet_mapDelete]
  by_cases h : k' = k <;> simp [h]

theorem mapSet_self [DecidableEq κ] (l : List (κ × β)) (k : κ) (b : β)
    (h : mapGet l k = some b) : mapSet l k b = l := by
  induction l with
  | nil => simp [mapGet] at h
  | cons p t ih =>
    obtain ⟨k₀, b₀⟩ := p
    simp only [mapGet] at h
    simp only [mapSet]
    by_cases h0 : k₀ = k
    · rw [if_pos h0] at h ⊢
      cases h
      rfl
    · rw [if_neg h0] at h ⊢
      rw [ih h]

theorem mapDelete_of_not_has [DecidableEq κ] (l : List (κ × β)) (k : κ)
    (h : mapHas l k = false) : mapDelete l k = l := by
  induction l with
  | nil => rfl
  | cons p t ih =>
    obtain ⟨k₀, b₀⟩ := p
    simp only [mapHas, mapGet] at h
    by_cases h0 : k₀ = k
    · rw [if_pos h0] at h
      simp at h
    · rw [if_neg h0] at h
      have ht := ih (by simpa [mapHas] using h)
      simp [mapDelete, h0, ht]

theorem mem_setAdd [DecidableEq κ] (s : List κ) (k x : κ) :
    x ∈ setAdd s k ↔ x ∈ s ∨ x = k := by
  simp only [setAdd]
  by_cases h : k ∈ s
  · simp only [if_pos h]
    constructor
    · exact Or.inl
    · rintro (hx | rfl)
      · exact hx
      · exact h
  · simp [if_neg h]

theorem mem_setDelete [DecidableEq κ] (s : List κ) (k x : κ) :
    x ∈ setDelete s k ↔ x ∈ s ∧ x ≠ k := by
  induction s with
  | nil => simp [setDelete]
  | cons y t ih =>
    by_cases h : y = k
    · subst h
      have hs : setDelete (y :: t) y = setDelete t y := by
        simp [setDelete]
      rw [hs, ih]
      simp only [List.mem_cons]
      constructor
      · rintro ⟨hx, hk⟩
        exact ⟨Or.inr hx, hk⟩
      · rintro ⟨rfl | hx, hk⟩
        · exact absurd rfl hk
        · exact ⟨hx, hk⟩
    · have hs : setDelete (y :: t) k = y :: setDelete t k := by
        simp [setDelete, h]
      rw [hs]
      simp only [List.mem_cons, ih]
      constructor
      · rintro (rfl | ⟨hx, hk⟩)
        · exact ⟨Or.inl rfl, h⟩
        · exact ⟨Or.inr hx, hk⟩
      · rintro ⟨rfl | hx, hk⟩
        · exact Or.inl rfl
        · exact Or.inr ⟨hx, hk⟩

theorem setDelete_of_not_mem [DecidableEq κ] (s : List κ) (k : κ)
    (h : k ∉ s) : setDelete s k = s := by
  induction s with
  | nil => rfl
  | cons y t ih =>
    simp only [List.mem_cons, not_or] at h
    have hy : ¬y = k := fun hc => h.1 hc.symm
    simp [setDelete, hy, ih h.2]

/-! ### Entry-list (Store.db) lemmas -/

@[simp]
theorem dbEntries_nil : dbEntries ([] : DbData α) = [] := rfl

@[simp]
theorem dbEntries_cons_none (t : DbData α) :
    dbEntries (none :: t) = dbEntries t := rfl

@[simp]
theorem dbEntries_cons_some (p : String × α) (t : DbData α) :
    dbEntries (some p :: t) = p :: dbEntries t := rfl

@[simp]
theorem dbKeys_nil : dbKeys ([] : DbData α) = [] := rfl

@[simp]
theorem dbKeys_cons_none (t : DbData α) : dbKeys (none :: t) = dbKeys t :=
  rfl

@[simp]
theorem dbKeys_cons_some (p : String × α) (t : DbData α) :
    dbKeys (some p :: t) = p.1 :: dbKeys t := rfl

theorem dbHas_eq_isSome (db : DbData α) (k : String) :
    dbHas db k = (dbGet db k).isSome := by
  induction db with
  | nil => rfl
  | cons e t ih =>
    cases e with
    | none => simpa [dbHas, dbGet, List.any_cons] using ih
    | some p =>
      obtain ⟨k₀, v₀⟩ := p
      simp only [dbHas, List.any_cons, dbGet] at ih ⊢
      by_cases h0 : k₀ = k
      · simp [h0]
      · simp only [Option.elim, h0, if_neg h0, decide_False, Bool.false_or]
        simpa [dbHas] using ih

theorem dbGet_dbSet_self (db : DbData α) (k : String) (v : α) :
    dbGet (dbSet db k v) k = some v := by
  induction db with
  | nil => simp [dbSet, dbGet]
  | cons e t ih =>
    cases e with
    | none => simpa [dbSet, dbGet] using ih
    | some p =>
      obtain ⟨k₀, v₀⟩ := p
      simp only [dbSet]
      by_cases h0 : k₀ = k
      · simp [dbGet, h0]
      · simpa [dbGet, h0] using ih

theorem dbGet_eq_none_of_not_mem (db : DbData α) (k : String)
    (h : k ∉ dbKeys db) : dbGet db k = none := by
  induction db with
  | nil => rfl
  | cons e t ih =>
    cases e with
    | none =>
      rw [dbKeys_cons_none] at h
      exact ih h
    | some p =>
      obtain ⟨k₀, v₀⟩ := p
      rw [dbKeys_cons_some, List.mem_cons, not_or] at h
      simp only [dbGet]
      rw [if_neg (fun hc => h.1 hc.symm)]
      exact ih h.2

theorem dbGet_dbDelete_self (db : DbData α) (k : String) (hnd : dbNodup db) :
    dbGet (dbDelete db k) k = none := by
  induction db with
  | nil => rfl
  | cons e t ih =>
    cases e with
    | none =>
      rw [dbNodup, dbKeys_cons_none] at hnd
      simpa [dbDelete, dbGet] using ih hnd
    | some p =>
      obtain ⟨k₀, v₀⟩ := p
      rw [dbNodup, dbKeys_cons_some, List.nodup_cons] at hnd
      simp only [dbDelete]
      by_cases h0 : k₀ = k
      · simp only [if_pos h0, dbGet]
        exact dbGet_eq_none_of_not_mem t k (h0 ▸ hnd.1)
      · simpa [dbGet, h0] using ih hnd.2

theorem mem_dbKeys_dbSet (db : DbData α) (k x : String) (v : α) :
    x ∈ dbKeys (dbSet db k v) ↔ x ∈ dbKeys db ∨ x = k := by
  induction db with
  | nil => simp [dbSet, dbKeys]
  | cons e t ih =>
    cases e with
    | none =>
      have hs : dbSet (none :: t) k v = none :: dbSet t k v := rfl
      rw [hs, dbKeys_cons_none, dbKeys_cons_none]
      exact ih
    | some p =>
      obtain ⟨k₀, v₀⟩ := p
      by_cases h0 : k₀ = k
      · subst h0
        have hs : dbSet (some (k₀, v₀) :: t) k₀ v = some (k₀, v) :: t := by
          simp [dbSet]
        rw [hs, dbKeys_cons_some, dbKeys_cons_some]
        simp only [List.mem_cons]
        constructor
        · exact Or.inl
        · rintro ((rfl | hx) | rfl)
          · exact Or.inl rfl
          · exact Or.inr hx
          · exact Or.inl rfl
      · have hs : dbSet (some (k₀, v₀) :: t) k v =
            some (k₀, v₀) :: dbSet t k v := by
          simp [dbSet, h0]
        rw [hs, dbKeys_cons_some, dbKeys_cons_some]
        simp only [List.mem_cons, ih]
        tauto

theorem dbNodup_dbSet (db : DbData α) (k : String) (v : α)
    (hnd : dbNodup db) : dbNodup (dbSet db k v) := by
  induction db with
  | nil => simp [dbSet, dbNodup, dbKeys]
  | cons e t ih =>
    cases e with
    | none =>
      rw [dbNodup, dbKeys_cons_none] at hnd
      have hs : dbSet (none :: t) k v = none :: dbSet t k v := rfl
      rw [hs, dbNodup, dbKeys_cons_none]
      exact ih hnd
    | some p =>
      obtain ⟨k₀, v₀⟩ := p
      rw [dbNodup, dbKeys_cons_some, List.nodup_cons] at hnd
      by_cases h0 : k₀ = k
      · have hs : dbSet (some (k₀, v₀) :: t) k v = some (k₀, v) :: t := by
          simp [dbSet, h0]
        rw [hs, dbNodup, dbKeys_cons_some, List.nodup_cons]
        exact hnd
      · have hs : dbSet (some (k₀, v₀) :: t) k v =
            some (k₀, v₀) :: dbSet t k v := by
          simp [dbSet, h0]
        rw [hs, dbNodup, dbKeys_cons_some, List.nodup_cons]
        refine ⟨fun hc => ?_, ih hnd.2⟩
        rcases (mem_dbKeys_dbSet t k k₀ v).mp hc with hx | hx
        · exact hnd.1 hx
        · exact h0 hx

theorem dbKeys_dbDelete_sublist (db : DbData α) (k : String) :
    (dbKeys (dbDelete db k)).Sublist (dbKeys db) := by
  induction db with
  | nil => simp [dbDelete, dbKeys]
  | cons e t ih =>
    cases e with
    | none =>
      have hs : dbDelete (none :: t) k = none :: dbDelete t k := rfl
      rw [hs, dbKeys_cons_none, dbKeys_cons_none]
      exact ih
    | some p =>
      obtain ⟨k₀, v₀⟩ := p
      by_cases h0 : k₀ = k
      · have hs : dbDelete (some (k₀, v₀) :: t) k = none :: t := by
          simp [dbDelete, h0]
        rw [hs, dbKeys_cons_none, dbKeys_cons_some]
        exact List.sublist_cons_self k₀ _
      · have hs : dbDelete (some (k₀, v₀) :: t) k =
            some (k₀, v₀) :: dbDelete t k := by
          simp [dbDelete, h0]
        rw [hs, dbKeys_cons_some, dbKeys_cons_some]
        exact List.Sublist.cons₂ k₀ ih

theorem dbNodup_dbDelete (db : DbData α) (k : String) (hnd : dbNodup db) :
    dbNodup (dbDelete db k) :=
  List.Nodup.sublist (dbKeys_dbDelete_sublist db k) hnd

/-! ### Lemmas about the find iterator -/

theorem matchedEntries_cons_none (t : DbData α) (q : String × β → Bool)
    (f : α → β) : matchedEntries (none :: t) q f = matchedEntries t q f :=
  rfl

theorem matchedEntries_cons_some (k : String) (v : α) (t : DbData α)
    (q : String × β → Bool) (f : α → β) :
    matchedEntries (some (k, v) :: t) q f =
      if q (k, f v) then (k, f v) :: matchedEntries t q f
      else matchedEntries t q f := by
  simp [matchedEntries, List.filter_cons]

theorem scanQ_eq_none (l : DbData α) (q : String × β → Bool) (f : α → β)
    (h : scanQ q f l = none) : matchedEntries l q f = [] := by
  induction l with
  | nil => rfl
  | cons e t ih =>
    cases e with
    | none =>
      rw [matchedEntries_cons_none]
      exact ih (Option.map_eq_none'.mp h)
    | some p =>
      obtain ⟨k, v⟩ := p
      by_cases hq : q (k, f v)
      · simp [scanQ, hq] at h
      · rw [matchedEntries_cons_some, if_neg hq]
        simp only [scanQ, if_neg hq] at h
        exact ih (Option.map_eq_none'.mp h)

theorem scanQ_eq_some (l : DbData α) (q : String × β → Bool) (f : α → β)
    (kv : String × β) (n : Nat) (h : scanQ q f l = some (kv, n)) :
    matchedEntries l q f = kv :: matchedEntries (l.drop n) q f ∧
      1 ≤ n ∧ n ≤ l.length := by
  induction l generalizing kv n with
  | nil => cases h
  | cons e t ih =>
    cases e with
    | none =>
      obtain ⟨⟨kv', n'⟩, hsc, heq⟩ := Option.map_eq_some'.mp h
      cases heq
      obtain ⟨hm, h1, h2⟩ := ih _ _ hsc
      refine ⟨?_, by omega, by simpa using by omega⟩
      rw [matchedEntries_cons_none, List.drop_succ_cons]
      exact hm
    | some p =>
      obtain ⟨k, v⟩ := p
      by_cases hq : q (k, f v)
      · simp only [scanQ, if_pos hq, Option.some.injEq, Prod.mk.injEq] at h
        obtain ⟨rfl, rfl⟩ := h
        refine ⟨?_, le_refl 1, by simp⟩
        rw [matchedEntries_cons_some, if_pos hq, List.drop_succ_cons,
          List.drop_zero]
      · simp only [scanQ, if_neg hq] at h
        obtain ⟨⟨kv', n'⟩, hsc, heq⟩ := Option.map_eq_some'.mp h
        cases heq
        obtain ⟨hm, h1, h2⟩ := ih _ _ hsc
        refine ⟨?_, by omega, by simpa using by omega⟩
        rw [matchedEntries_cons_some, if_neg hq, List.drop_succ_cons]
        exact hm

theorem drainFindGo_spec (db : DbData α) (q : String × β → Bool) (f : α → β) :
    ∀ fuel i, db.length - i ≤ fuel →
      drainFindGo db q f fuel i = matchedEntries (db.drop i) q f := by
  intro fuel
  induction fuel with
  | zero =>
    intro i hi
    have hle : db.length ≤ i := by omega
    rw [List.drop_eq_nil_of_le hle]
    rfl
  | succ fuel ih =>
    intro i hi
    simp only [drainFindGo]
    cases hsc : scanQ q f (db.drop i) with
    | none =>
      rw [show findNext db q f i = none from by simp [findNext, hsc]]
      rw [scanQ_eq_none _ _ _ hsc]
    | some r =>
      obtain ⟨kv, n⟩ := r
      rw [show findNext db q f i = some (kv, i + n) from by
        simp [findNext, hsc]]
      obtain ⟨hm, h1, h2⟩ := scanQ_eq_some _ _ _ _ _ hsc
      have hlen : (db.drop i).length = db.length - i := List.length_drop i db
      rw [hlen] at h2
      show kv :: drainFindGo db q f fuel (i + n) =
        matchedEntries (db.drop i) q f
      rw [hm, List.drop_drop, ih (i + n) (by omega)]

theorem drainFind_eq_matchedEntries (db : DbData α) (q : String × β → Bool)
    (f : α → β) (i : Nat) :
    drainFind db q f i = matchedEntries (db.drop i) q f :=
  drainFindGo_spec db q f (db.length - i) i (le_refl _)

theorem findNext_head (db : DbData α) (q : String × β → Bool) (f : α → β)
    (i : Nat) :
    (findNext db q f i).map (fun r => r.1) =
      (matchedEntries (db.drop i) q f).head? := by
  cases h : scanQ q f (db.drop i) with
  | none =>
    have hf : findNext db q f i = none := by
      simp [findNext, h]
    rw [hf, scanQ_eq_none _ _ _ h]
    rfl
  | some r =>
    obtain ⟨kv, n⟩ := r
    have hf : findNext db q f i = some (kv, i + n) := by
      simp [findNext, h]
    obtain ⟨hm, _, _⟩ := scanQ_eq_some _ _ _ _ _ h
    rw [hf, hm]
    rfl

/-! ### Lemmas about the router's fan-out -/

theorem mem_pub {ps : PubSub σ κ γ} [DecidableEq κ] {k : κ} {v : υ}
    {t : PubSubType} {d : Delivery κ υ γ} (hd : d ∈ PubSub.pub ps k v t) :
    d.key = k ∧ d.val = v ∧ d.kind = t := by
  simp only [PubSub.pub] at hd
  rcases List.mem_append.mp hd with hmem | hmem
  · obtain ⟨sc, _, rfl⟩ := List.mem_map.mp hmem
    exact ⟨rfl, rfl, rfl⟩
  · cases hg : mapGet ps.k_src_cb k with
    | none =>
      rw [hg] at hmem
      cases hmem
    | some srcCb =>
      rw [hg] at hmem
      obtain ⟨sc, _, rfl⟩ := List.mem_map.mp hmem
      exact ⟨rfl, rfl, rfl⟩

theorem pub_map_cb (ps : PubSub σ κ γ) [DecidableEq κ] (k : κ) (v : υ)
    (t : PubSubType) :
    (PubSub.pub ps k v t).map Delivery.cb =
      ps.global.map Prod.snd ++
        ((mapGet ps.k_src_cb k).getD []).map Prod.snd := by
  have hcomp : ∀ (l : List (σ × γ)),
      (l.map fun sc => (⟨sc.2, k, v, t⟩ : Delivery κ υ γ)).map Delivery.cb =
        l.map Prod.snd := by
    intro l
    rw [List.map_map]
    exact List.map_congr_left fun a _ => rfl
  simp only [PubSub.pub]
  cases hg : mapGet ps.k_src_cb k with
  | none =>
    simp only [Option.getD_none, List.map_nil, List.append_nil]
    exact hcomp _
  | some srcCb =>
    simp only [Option.getD_some]
    rw [List.map_append, hcomp, hcomp]

/-! ### The router's cross-mapping invariant -/

theorem mapHas_mapSet [DecidableEq κ] (l : List (κ × β)) (k k' : κ) (b : β) :
    mapHas (mapSet l k b) k' = if k = k' then true else mapHas l k' := by
  rw [mapHas, mapGet_mapSet]
  by_cases h : k = k' <;> simp [h, mapHas]

theorem subInKcb_getD [DecidableEq σ] [DecidableEq κ] (ps : PubSub σ κ γ)
    (src : σ) (k : κ) :
    subInKcb ps src k = mapHas ((mapGet ps.k_src_cb k).getD []) src := by
  cases h : mapGet ps.k_src_cb k <;> simp [subInKcb, h, mapHas, mapGet]

theorem keyInSrcKs_getD [DecidableEq σ] [DecidableEq κ] (ps : PubSub σ κ γ)
    (src : σ) (k : κ) :
    keyInSrcKs ps src k = decide (k ∈ (mapGet ps.src_ks src).getD []) := by
  cases h : mapGet ps.src_ks src <;> simp [keyInSrcKs, h]

theorem has_unfold [DecidableEq σ] [DecidableEq κ] (ps : PubSub σ κ γ)
    (src : σ) (k : κ) :
    PubSub.has ps src k =
      (mapHas ps.k_src_cb k && mapHas ps.src_ks src &&
        keyInSrcKs ps src k) :=
  rfl

theorem subInKcb_sub [DecidableEq σ] [DecidableEq κ] (ps : PubSub σ κ γ)
    (src : σ) (k : κ) (cb : γ) (src' : σ) (k' : κ) :
    subInKcb (ps.sub src k cb) src' k' =
      if src' = src ∧ k' = k then true else subInKcb ps src' k' := by
  rw [subInKcb_getD, subInKcb_getD]
  simp only [PubSub.sub]
  rw [mapGet_mapSet]
  by_cases hk : k = k'
  · subst hk
    rw [if_pos rfl, Option.getD_some, mapHas_mapSet]
    by_cases hs : src = src'
    · subst hs
      rw [if_pos rfl, if_pos ⟨rfl, rfl⟩]
    · rw [if_neg hs, if_neg (fun hc => hs hc.1.symm)]
  · rw [if_neg hk, if_neg (fun hc => hk hc.2.symm)]

theorem keyInSrcKs_sub [DecidableEq σ] [DecidableEq κ] (ps : PubSub σ κ γ)
    (src : σ) (k : κ) (cb : γ) (src' : σ) (k' : κ) :
    keyInSrcKs (ps.sub src k cb) src' k' =
      if src' = src ∧ k' = k then true else keyInSrcKs ps src' k' := by
  rw [keyInSrcKs_getD, keyInSrcKs_getD]
  simp only [PubSub.sub, mapGet_mapSet]
  by_cases hs : src = src'
  · subst hs
    by_cases hk : k' = k
    · subst hk
      simp [mem_setAdd]
    · simp [hk, mem_setAdd]
  · have hns : ¬(src' = src ∧ k' = k) := fun hc => hs hc.1.symm
    simp [hs, hns]

theorem subInKcb_unsub [DecidableEq σ] [DecidableEq κ] (ps : PubSub σ κ γ)
    (src : σ) (k : κ) (src' : σ) (k' : κ) :
    subInKcb (ps.unsub src k) src' k' =
      if src' = src ∧ k' = k then false else subInKcb ps src' k' := by
  rw [subInKcb_getD, subInKcb_getD]
  cases hm : mapGet ps.k_src_cb k with
  | none =>
    simp only [PubSub.unsub, hm]
    by_cases hc : src' = src ∧ k' = k
    · obtain ⟨rfl, rfl⟩ := hc
      rw [if_pos ⟨rfl, rfl⟩, hm]
      rfl
    · rw [if_neg hc]
  | some m =>
    simp only [PubSub.unsub, hm]
    rw [mapGet_mapSet]
    by_cases hk : k = k'
    · subst hk
      rw [if_pos rfl, Option.getD_some, mapHas_mapDelete, hm,
        Option.getD_some]
      by_cases hs : src' = src
      · rw [if_pos hs, if_pos ⟨hs, rfl⟩]
      · rw [if_neg hs, if_neg (fun hc => hs hc.1)]
    · rw [if_neg hk, if_neg (fun hc => hk hc.2.symm)]

theorem keyInSrcKs_unsub [DecidableEq σ] [DecidableEq κ] (ps : PubSub σ κ γ)
    (src : σ) (k : κ) (src' : σ) (k' : κ) :
    keyInSrcKs (ps.unsub src k) src' k' =
      if src' = src ∧ k' = k then false else keyInSrcKs ps src' k' := by
  rw [keyInSrcKs_getD, keyInSrcKs_getD]
  cases hm : mapGet ps.src_ks src with
  | none =>
    simp only [PubSub.unsub, hm]
    by_cases hc : src' = src ∧ k' = k
    · obtain ⟨rfl, rfl⟩ := hc
      rw [if_pos ⟨rfl, rfl⟩, hm]
      rfl
    · rw [if_neg hc]
  | some ks =>
    simp only [PubSub.unsub, hm]
    rw [mapGet_mapSet]
    by_cases hs : src = src'
    · subst hs
      rw [if_pos rfl, Option.getD_some, hm, Option.getD_some]
      by_cases hk : k' = k
      · subst hk
        rw [if_pos ⟨rfl, rfl⟩]
        simp [mem_setDelete]
      · rw [if_neg (fun hc => hk hc.2)]
        exact decide_eq_decide.mpr
          ((mem_setDelete _ _ _).trans (and_iff_left hk))
    · rw [if_neg hs, if_neg (fun hc => hs hc.1.symm)]

theorem invPS_empty [DecidableEq σ] [DecidableEq κ] :
    InvPS (PubSub.empty : PubSub σ κ γ) :=
  fun _ _ => rfl

theorem invPS_sub [DecidableEq σ] [DecidableEq κ] (ps : PubSub σ κ γ)
    (src : σ) (k : κ) (cb : γ) (h : InvPS ps) : InvPS (ps.sub src k cb) := by
  intro src' k'
  rw [subInKcb_sub, keyInSrcKs_sub]
  by_cases hc : src' = src ∧ k' = k
  · rw [if_pos hc, if_pos hc]
  · rw [if_neg hc, if_neg hc]
    exact h src' k'

theorem invPS_unsub [DecidableEq σ] [DecidableEq κ] (ps : PubSub σ κ γ)
    (src : σ) (k : κ) (h : InvPS ps) : InvPS (ps.unsub src k) := by
  intro src' k'
  rw [subInKcb_unsub, keyInSrcKs_unsub]
  by_cases hc : src' = src ∧ k' = k
  · rw [if_pos hc, if_pos hc]
  · rw [if_neg hc, if_neg hc]
    exact h src' k'

theorem invPS_subGlobal [DecidableEq σ] [DecidableEq κ] (ps : PubSub σ κ γ)
    (src : σ) (cb : γ) (h : InvPS ps) : InvPS (ps.subGlobal src cb) :=
  h

theorem invPS_unsubGlobal [DecidableEq σ] [DecidableEq κ] (ps : PubSub σ κ γ)
    (src : σ) (h : InvPS ps) : InvPS (ps.unsubGlobal src) :=
  h

theorem invPS_foldl_unsub [DecidableEq σ] [DecidableEq κ] (l : List κ)
    (src : σ) (ps : PubSub σ κ γ) (h : InvPS ps) :
    InvPS (l.foldl (fun acc k => acc.unsub src k) ps) := by
  induction l generalizing ps with
  | nil => exact h
  | cons k t ih => exact ih _ (invPS_unsub ps src k h)

theorem invPS_unsubEveryWhere [DecidableEq σ] [DecidableEq κ]
    (ps : PubSub σ κ γ) (src : σ) (h : InvPS ps) :
    InvPS (ps.unsubEveryWhere src) := by
  rw [PubSub.unsubEveryWhere]
  cases hm : mapGet (ps.unsubGlobal src).src_ks src with
  | none => exact invPS_unsubGlobal ps src h
  | some ks => exact invPS_foldl_unsub ks src _ (invPS_unsubGlobal ps src h)

theorem invPS_applyOp [DecidableEq σ] [DecidableEq κ] (ps : PubSub σ κ γ)
    (op : PubSubOp σ κ γ υ) (h : InvPS ps) : InvPS (applyOp ps op) := by
  cases op with
  | subGlobal src cb => exact invPS_subGlobal ps src cb h
  | unsubGlobal src => exact invPS_unsubGlobal ps src h
  | sub src k cb => exact invPS_sub ps src k cb h
  | unsub src k => exact invPS_unsub ps src k h
  | unsubEveryWhere src => exact invPS_unsubEveryWhere ps src h
  | pub k v t => exact h
  | pubTo src k v t => exact h

theorem invPS_applyOps [DecidableEq σ] [DecidableEq κ]
    (ops : List (PubSubOp σ κ γ υ)) : InvPS (applyOps ops : PubSub σ κ γ) := by
  rw [applyOps]
  have hgen : ∀ (ps : PubSub σ κ γ), InvPS ps →
      InvPS (ops.foldl applyOp ps) := by
    induction ops with
    | nil => exact fun ps h => h
    | cons op t ih => exact fun ps h => ih _ (invPS_applyOp ps op h)
  exact hgen PubSub.empty invPS_empty

theorem has_eq_subInKcb [DecidableEq σ] [DecidableEq κ] (ps : PubSub σ κ γ)
    (src : σ) (k : κ) (h : InvPS ps) :
    PubSub.has ps src k = subInKcb ps src k := by
  cases hsb : subInKcb ps src k with
  | false =>
    have h3 : keyInSrcKs ps src k = false := (h src k).symm.trans hsb
    rw [has_unfold, h3]
    simp
  | true =>
    have h3 : keyInSrcKs ps src k = true := (h src k).symm.trans hsb
    have h1 : mapHas ps.k_src_cb k = true := by
      rw [subInKcb] at hsb
      cases hg : mapGet ps.k_src_cb k with
      | none => rw [hg] at hsb; cases hsb
      | some m => simp [mapHas, hg]
    have h2 : mapHas ps.src_ks src = true := by
      rw [keyInSrcKs] at h3
      cases hg : mapGet ps.src_ks src with
      | none => rw [hg] at h3; cases h3
      | some ks => simp [mapHas, hg]
    rw [has_unfold, h1, h2, h3]
    rfl

/-! ### Invariants of every reachable Store -/

theorem applyStoreOp_invPS [DecidableEq α] (s : Store α γ) (op : StoreOp α γ)
    (h : InvPS s.pubsub) : InvPS (applyStoreOp s op).pubsub := by
  cases op with
  | set k v => exact h
  | del k =>
    simp only [applyStoreOp, Store.del]
    by_cases hh : dbHas s.db k
    · rw [if_pos hh]
      cases hg : dbGet s.db k with
      | none => exact h
      | some v => exact invPS_unsub s.pubsub k (JsVal.raw v) h
    · rw [if_neg hh]
      exact h
  | pub k => exact h
  | sub src k cb now =>
    simp only [applyStoreOp, Store.sub]
    by_cases hh : dbHas s.db k
    · rw [if_pos hh]
      cases now with
      | true =>
        cases hp : (s.pubsub.sub src (JsVal.str k) cb).pubTo src
            (JsVal.str k) (dbGet s.db k) PubSubType.sub with
        | none => exact invPS_sub s.pubsub src (JsVal.str k) cb h
        | some d => exact invPS_sub s.pubsub src (JsVal.str k) cb h
      | false => exact invPS_sub s.pubsub src (JsVal.str k) cb h
    · rw [if_neg hh]
      exact h
  | unsub src k =>
    simp only [applyStoreOp, Store.unsub]
    by_cases hh : dbHas s.db k
    · rw [if_pos hh]
      exact invPS_unsub s.pubsub src (JsVal.str k) h
    · rw [if_neg hh]
      exact h
  | subGlobal src cb => exact h
  | unsubGlobal src => exact h
  | unsubEveryWhere src => exact invPS_unsubEveryWhere s.pubsub src h

theorem applyStoreOp_dbNodup [DecidableEq α] (s : Store α γ)
    (op : StoreOp α γ) (h : dbNodup s.db) : dbNodup (applyStoreOp s op).db := by
  cases op with
  | set k v => exact dbNodup_dbSet s.db k v h
  | del k =>
    simp only [applyStoreOp, Store.del]
    by_cases hh : dbHas s.db k
    · rw [if_pos hh]
      cases hg : dbGet s.db k with
      | none => exact h
      | some v => exact dbNodup_dbDelete s.db k h
    · rw [if_neg hh]
      exact h
  | pub k => exact h
  | sub src k cb now =>
    simp only [applyStoreOp, Store.sub]
    by_cases hh : dbHas s.db k
    · rw [if_pos hh]
      cases now with
      | true =>
        cases hp : (s.pubsub.sub src (JsVal.str k) cb).pubTo src
            (JsVal.str k) (dbGet s.db k) PubSubType.sub with
        | none => exact h
        | some d => exact h
      | false => exact h
    · rw [if_neg hh]
      exact h
  | unsub src k =>
    simp only [applyStoreOp, Store.unsub]
    by_cases hh : dbHas s.db k
    · rw [if_pos hh]
      exact h
    · rw [if_neg hh]
      exact h
  | subGlobal src cb => exact h
  | unsubGlobal src => exact h
  | unsubEveryWhere src => exact h

/-- Every Store reachable through the public operations keeps the router's
cross-mapping bookkeeping consistent. -/
theorem applyStoreOps_invPS [DecidableEq α] (ops : List (StoreOp α γ)) :
    InvPS ((applyStoreOps ops : Store α γ)).pubsub := by
  rw [applyStoreOps]
  have hgen : ∀ (s : Store α γ), InvPS s.pubsub →
      InvPS ((ops.foldl applyStoreOp s).pubsub) := by
    induction ops with
    | nil => exact fun s h => h
    | cons op t ih => exact fun s h => ih _ (applyStoreOp_invPS s op h)
  exact hgen Store.build invPS_empty

/-- Every Store reachable through the public operations has duplicate-free
entry keys. -/
theorem applyStoreOps_dbNodup [DecidableEq α] (ops : List (StoreOp α γ)) :
    dbNodup ((applyStoreOps ops : Store α γ)).db := by
  rw [applyStoreOps]
  have hgen : ∀ (s : Store α γ), dbNodup s.db →
      dbNodup ((ops.foldl applyStoreOp s).db) := by
    induction ops with
    | nil => exact fun s h => h
    | cons op t ih => exact fun s h => ih _ (applyStoreOp_dbNodup s op h)
  exact hgen Store.build List.nodup_nil

/-! ### The claims -/

/-- C1, counterexample: contrary to the claim, `pub` on an absent key does
not raise a `StoreError`.  In the empty store the key `"a"` is absent, yet
`pub "a"` returns successfully (with no subscribers it performs no
deliveries); the source of `Store.pub` contains no throw at all. -/
theorem C1_pub_absent_no_error :
    Store.has (Store.build : Store Nat Nat) "a" = false ∧
    Store.pub (Store.build : Store Nat Nat) "a" =
      Except.ok (Store.build, []) :=
  ⟨rfl, rfl⟩

/-- C1, amended: `pub(k)` never raises a `StoreError`.  For every store and
key it succeeds leaving the whole state (entry and subscriptions) unchanged,
and every delivery it performs carries the key `k`, the current value of `k`
(`none`, i.e. JS `undefined`, when `k` is absent) and trigger-kind `pub`. -/
theorem C1_pub_spec [DecidableEq α] (s : Store α γ) (k : String) :
    (Store.pub s k).isOk = true ∧
    ∀ s' tr, Store.pub s k = Except.ok (s', tr) →
      s' = s ∧ ∀ d ∈ tr,
        d.key = JsVal.str k ∧ d.val = Store.get s k ∧
          d.kind = PubSubType.pub := by
  refine ⟨rfl, ?_⟩
  intro s' tr h
  rw [Store.pub] at h
  injection h with h2
  injection h2 with ha hb
  subst ha
  subst hb
  exact ⟨rfl, fun d hd => mem_pub hd⟩

/-- Witness for `C1_pub_spec`, at the store `storeAGlob` (entry `a ↦ 1`,
global subscriber `cb 9`) and the absent key `"zz"`: the published value is
the absent marker. -/
theorem C1_pub_spec_witness :
    (Store.pub storeAGlob "zz").isOk = true ∧
    (⟨9, JsVal.str "zz", none, PubSubType.pub⟩ :
        Delivery (JsVal Nat) (Option Nat) Nat).val =
      Store.get storeAGlob "zz" := by
  refine ⟨(C1_pub_spec storeAGlob "zz").1, ?_⟩
  have h := (C1_pub_spec storeAGlob "zz").2 storeAGlob
    [⟨9, JsVal.str "zz", none, PubSubType.pub⟩] rfl
  exact (h.2 _ (by decide)).2.1

/-- C3, counterexample: the sequence `find` returns is not
snapshot-consistent.  `storeA` holds exactly the entry `("a", 1)` when
`find()` is called (live iterator at slot 0); `set "b" 2` then runs before
consumption, and draining that same iterator yields `("b", 2)` as well — the
yielded pairs are changed by a `set` performed between the call and the
consumption. -/
theorem C3_find_not_snapshot :
    dbEntries storeA.db = [("a", 1)] ∧
    drainFind storeAB.db (normQ Query.undef) (fun v => v) 0 =
      [("a", 1), ("b", 2)] ∧
    drainFind storeAB.db (normQ Query.undef) (fun v => v) 0 ≠
      drainFind storeA.db (normQ Query.undef) (fun v => v) 0 := by
  refine ⟨rfl, by decide, by decide⟩

/-- C3, amended: each `find(q, f)` call creates a fresh, lazy, finite,
one-shot sequence over the store's *live* entry iterator, not a snapshot:
fully consuming it yields exactly the matching mapped entries of the entry
list as it stands at consumption time, so a `set` or `del` performed between
the call and the consumption is visible to the sequence (inserted entries
are yielded, deleted slots are skipped). -/
theorem C3_find_live_spec (db0 : DbData α) (k k' : String) (v : α)
    (q : String × β → Bool) (f : α → β) :
    drainFind (dbSet db0 k v) q f 0 = matchedEntries (dbSet db0 k v) q f ∧
    drainFind (dbDelete db0 k') q f 0 =
      matchedEntries (dbDelete db0 k') q f := by
  constructor
  · rw [drainFind_eq_matchedEntries, List.drop_zero]
  · rw [drainFind_eq_matchedEntries, List.drop_zero]

/-- C2 fails on the code (a slip in `Store.del`, contradicting its own doc
comment "Also unsubscribe any subscriber"): with entry `a ↦ 1` and the
scoped subscription `("s", "a") ↦ cb 0`, `del "a"` succeeds and delivers the
`del` notification, but `hasSub "s" "a"` still reports `true` afterwards.
`Store.del` calls `pubsub.unsub(k, v)` — the deleted key in the router's
*source* slot and the value in its *key* slot — so no scoped subscription of
`k` is removed and `k`'s callback map survives in the router. -/
theorem C2_del_leaves_subscriptions :
    Store.hasSub storeASub "s" "a" = true ∧
    Store.del storeASub "a" =
      Except.ok (storeASubDel,
        [⟨0, JsVal.str "a", some 1, PubSubType.del⟩]) ∧
    Store.hasSub storeASubDel "s" "a" = true :=
  ⟨rfl, rfl, rfl⟩

/-- C5: `set(k, v)` never fails (it is total in the source and in this
model); afterwards `get k` returns `v` and `has k` holds; and it performs
exactly one fan-out, to the subscribers resolved for `k` (all global
subscribers, then `k`'s scoped subscribers, in registration order), whose
every delivery carries trigger-kind `set`, the key `k` and the new value
`v`, whether or not `v` differs from the previous value. -/
theorem C5_set_spec [DecidableEq α] (s : Store α γ) (k : String) (v : α) :
    Store.get (Store.set s k v).1 k = some v ∧
    Store.has (Store.set s k v).1 k = true ∧
    ((Store.set s k v).2.map Delivery.cb =
      s.pubsub.global.map Prod.snd ++
        ((mapGet s.pubsub.k_src_cb (JsVal.str k)).getD []).map Prod.snd) ∧
    ∀ d ∈ (Store.set s k v).2,
      d.key = JsVal.str k ∧ d.val = some v ∧ d.kind = PubSubType.set := by
  refine ⟨?_, ?_, ?_, ?_⟩
  · exact dbGet_dbSet_self s.db k v
  · show dbHas (dbSet s.db k v) k = true
    rw [dbHas_eq_isSome, dbGet_dbSet_self]
    rfl
  · exact pub_map_cb s.pubsub (JsVal.str k) (some v) PubSubType.set
  · exact fun d hd => mem_pub hd

/-- Witness for `C5_set_spec`, at `storeAGlob` (global subscriber `cb 9`),
key `"a"` (already set to `1`) and the new value `5`. -/
theorem C5_set_spec_witness :
    Store.get (Store.set storeAGlob "a" 5).1 "a" = some 5 ∧
    (⟨9, JsVal.str "a", some 5, PubSubType.set⟩ :
        Delivery (JsVal Nat) (Option Nat) Nat).val = some 5 := by
  refine ⟨(C5_set_spec storeAGlob "a" 5).1, ?_⟩
  exact ((C5_set_spec storeAGlob "a" 5).2.2.2 _ (by decide)).2.1

/-- C9: one published event on key `k` reaches every global subscriber
before any subscriber scoped to `k`; within each group the callbacks are
invoked in registration (insertion) order, each registered callback exactly
once — the invocation list is precisely the global registry followed by
`k`'s scoped registry — and every delivery carries the same
`(k, v, triggerKind)`. -/
theorem C9_pub_fanout [DecidableEq κ] (ps : PubSub σ κ γ) (k : κ) (v : υ)
    (t : PubSubType) :
    ((PubSub.pub ps k v t).map Delivery.cb =
      ps.global.map Prod.snd ++
        ((mapGet ps.k_src_cb k).getD []).map Prod.snd) ∧
    ∀ d ∈ PubSub.pub ps k v t, d.key = k ∧ d.val = v ∧ d.kind = t :=
  ⟨pub_map_cb ps k v t, fun _ hd => mem_pub hd⟩

/-- Witness for `C9_pub_fanout`, at the router `psW` (global `g ↦ cb 9`,
scoped `s ↦ cb 7` on `"k"`): the invocation order is `[9, 7]`. -/
theorem C9_pub_fanout_witness :
    (PubSub.pub psW "k" (5 : Nat) PubSubType.pub).map Delivery.cb =
      [9, 7] ∧
    (⟨7, "k", 5, PubSubType.pub⟩ : Delivery String Nat Nat).kind =
      PubSubType.pub := by
  constructor
  · rw [(C9_pub_fanout psW "k" (5 : Nat) PubSubType.pub).1]
    decide
  · exact ((C9_pub_fanout psW "k" (5 : Nat) PubSubType.pub).2 _
      (by decide)).2.2

/-- C10: in every router state reachable from the empty router by any
sequence of `subGlobal`, `sub`, `unsubGlobal`, `unsub`, `unsubEveryWhere`,
`pub` and `pubTo` calls with arbitrary arguments, the per-key callback map
and the per-source key set agree on every `(src, k)` pair, and the
three-structure cross-check `PubSub.has` coincides with the single lookup of
`src` in `k`'s callback map. -/
theorem C10_router_invariant [DecidableEq σ] [DecidableEq κ]
    (ops : List (PubSubOp σ κ γ υ)) (src : σ) (k : κ) :
    subInKcb (applyOps ops : PubSub σ κ γ) src k =
      keyInSrcKs (applyOps ops : PubSub σ κ γ) src k ∧
    PubSub.has (applyOps ops : PubSub σ κ γ) src k =
      subInKcb (applyOps ops : PubSub σ κ γ) src k :=
  ⟨invPS_applyOps ops src k,
    has_eq_subInKcb _ src k (invPS_applyOps ops)⟩

/-- C4: `del(k)` raises a `StoreError` (carrying the offending key) exactly
when `k` is absent — the throw is the first statement of the method, so a
failing `del` produces no successor state and leaves everything unchanged —
and on a present key it succeeds, afterwards `has k` is false, and every
delivery of its notification carries trigger-kind `del`, key `k` and the
value `k` held immediately before the deletion.  The `dbNodup` hypothesis is
the JS `Map` key-uniqueness invariant, which every reachable Store enjoys
(`applyStoreOps_dbNodup`). -/
theorem C4_del_spec [DecidableEq α] (s : Store α γ) (k : String)
    (hnd : dbNodup s.db) :
    ((Store.del s k).isOk = Store.has s k) ∧
    (Store.has s k = false →
      Store.del s k =
        Except.error ⟨"store.error.delete.key.not.exists", k⟩) ∧
    ∀ s' tr, Store.del s k = Except.ok (s', tr) →
      Store.has s' k = false ∧
      ∀ d ∈ tr, d.key = JsVal.str k ∧ d.val = Store.get s k ∧
        d.kind = PubSubType.del := by
  cases hh : dbHas s.db k with
  | true =>
    have hv' : (dbGet s.db k).isSome = true := by
      rw [← dbHas_eq_isSome]
      exact hh
    obtain ⟨v, hv⟩ := Option.isSome_iff_exists.mp hv'
    have hdel : Store.del s k =
        Except.ok (⟨dbDelete s.db k, s.pubsub.unsub k (JsVal.raw v)⟩,
          s.pubsub.pub (JsVal.str k) (some v) PubSubType.del) := by
      rw [Store.del, if_pos hh, hv]
    refine ⟨?_, ?_, ?_⟩
    · rw [hdel]
      show true = Store.has s k
      rw [Store.has, hh]
    · intro hfalse
      rw [Store.has, hh] at hfalse
      cases hfalse
    · intro s' tr h
      rw [hdel] at h
      injection h with h2
      injection h2 with ha hb
      subst ha
      subst hb
      refine ⟨?_, ?_⟩
      · show dbHas (dbDelete s.db k) k = false
        rw [dbHas_eq_isSome, dbGet_dbDelete_self s.db k hnd]
        rfl
      · intro d hd
        have hm := mem_pub hd
        refine ⟨hm.1, hm.2.1.trans ?_, hm.2.2⟩
        rw [Store.get, hv]
  | false =>
    have hnot : ¬(dbHas s.db k = true) := by
      simp [hh]
    have herr : Store.del s k =
        Except.error ⟨"store.error.delete.key.not.exists", k⟩ := by
      rw [Store.del, if_neg hnot]
    refine ⟨?_, fun _ => herr, ?_⟩
    · rw [herr]
      show false = Store.has s k
      rw [Store.has, hh]
    · intro s' tr h
      rw [herr] at h
      exact Except.noConfusion h

/-- Witness for `C4_del_spec`: deleting `"a"` from `storeASub` makes
`has "a"` false and notifies the scoped subscriber with kind `del`; deleting
from the empty store raises the `StoreError`. -/
theorem C4_del_spec_witness :
    Store.has storeASubDel "a" = false ∧
    (⟨0, JsVal.str "a", some 1, PubSubType.del⟩ :
        Delivery (JsVal Nat) (Option Nat) Nat).kind = PubSubType.del ∧
    Store.del (Store.build : Store Nat Nat) "a" =
      Except.error ⟨"store.error.delete.key.not.exists", "a"⟩ := by
  have h := (C4_del_spec storeASub "a" (by decide)).2.2 storeASubDel
    delTraceA rfl
  refine ⟨h.1, (h.2 _ (by decide)).2.2, ?_⟩
  exact (C4_del_spec (Store.build : Store Nat Nat) "a" (by decide)).2.1 rfl

/-- C6: on a present key, `sub(src, k, cb, deliverNow := true)` performs
exactly one delivery, whose recipient is `cb` alone (no other scoped
subscriber of `k` and no global subscriber appears in the trace), carrying
trigger-kind `sub` and the current value of `k`; and in the run
`sub`-then-`set`, that delivery precedes every notification of the
subsequent `set` (the combined trace is the `sub` delivery consed onto the
`set` fan-out). -/
theorem C6_sub_deliver_now [DecidableEq α] (s : Store α γ) (src k : String)
    (cb : γ) (h : Store.has s k = true) :
    Except.map Prod.snd (Store.sub s src k cb true) =
      Except.ok [⟨cb, JsVal.str k, Store.get s k, PubSubType.sub⟩] ∧
    ∀ s2 tr, Store.sub s src k cb true = Except.ok (s2, tr) →
      ∀ v', tr ++ (Store.set s2 k v').2 =
        (⟨cb, JsVal.str k, Store.get s k, PubSubType.sub⟩ :
          Delivery (JsVal α) (Option α) γ) :: (Store.set s2 k v').2 := by
  have hpt : (s.pubsub.sub src (JsVal.str k) cb).pubTo src (JsVal.str k)
      (dbGet s.db k) PubSubType.sub =
      some ⟨cb, JsVal.str k, dbGet s.db k, PubSubType.sub⟩ := by
    have hget : mapGet ((s.pubsub.sub src (JsVal.str k) cb).k_src_cb)
        (JsVal.str k) =
        some (mapSet ((mapGet s.pubsub.k_src_cb (JsVal.str k)).getD [])
          src cb) := by
      simp only [PubSub.sub]
      rw [mapGet_mapSet, if_pos rfl]
    have hcb : mapGet (mapSet
        ((mapGet s.pubsub.k_src_cb (JsVal.str k)).getD []) src cb) src =
        some cb := by
      rw [mapGet_mapSet, if_pos rfl]
    simp only [PubSub.pubTo, hget, hcb]
  have hh : dbHas s.db k = true := h
  have hsub : Store.sub s src k cb true =
      Except.ok (⟨s.db, s.pubsub.sub src (JsVal.str k) cb⟩,
        [⟨cb, JsVal.str k, dbGet s.db k, PubSubType.sub⟩]) := by
    rw [Store.sub, if_pos hh, if_pos rfl, hpt]
  refine ⟨?_, ?_⟩
  · rw [hsub]
    rfl
  · intro s2 tr h2 v'
    rw [hsub] at h2
    injection h2 with h3
    injection h3 with ha hb
    subst hb
    rfl

/-- Witness for `C6_sub_deliver_now`: subscribing to `"a"` (current value
`1`) on `storeA` with `deliverNow` delivers exactly
`(cb 7, "a", 1, sub)`. -/
theorem C6_sub_deliver_now_witness :
    Except.map Prod.snd (Store.sub storeA "s" "a" (7 : Nat) true) =
      Except.ok [⟨7, JsVal.str "a", some 1, PubSubType.sub⟩] := by
  have h := (C6_sub_deliver_now storeA "s" "a" (7 : Nat) (by decide)).1
  rw [h]
  rfl

/-- C7: `sub` and `unsub` raise a `StoreError` exactly when the key is
absent (their results are `ok` precisely when `has k`); on a present key,
`unsub` with no existing `(src, k)` subscription is a strict no-op — given
the router's cross-mapping consistency `InvPS`, which every reachable Store
enjoys (`applyStoreOps_invPS`), it returns the state unchanged with no
deliveries — and with an existing subscription it removes it, so `hasSub`
is false afterwards. -/
theorem C7_sub_unsub_guard [DecidableEq α] (s : Store α γ) (src k : String) :
    (∀ (cb : γ) (now : Bool),
      (Store.sub s src k cb now).isOk = Store.has s k) ∧
    ((Store.unsub s src k).isOk = Store.has s k) ∧
    (Store.has s k = true → InvPS s.pubsub → Store.hasSub s src k = false →
      Store.unsub s src k = Except.ok (s, [])) ∧
    (Store.has s k = true → ∀ s' tr,
      Store.unsub s src k = Except.ok (s', tr) →
      Store.hasSub s' src k = false) := by
  refine ⟨?_, ?_, ?_, ?_⟩
  · intro cb now
    by_cases hh : dbHas s.db k = true
    · rw [Store.has, hh, Store.sub, if_pos hh]
      cases now with
      | true =>
        rw [if_pos rfl]
        cases hpt : (s.pubsub.sub src (JsVal.str k) cb).pubTo src
            (JsVal.str k) (dbGet s.db k) PubSubType.sub with
        | none => rfl
        | some d => rfl
      | false =>
        rw [if_neg (by simp)]
        rfl
    · have hfalse : dbHas s.db k = false := by
        cases hb : dbHas s.db k
        · rfl
        · exact absurd hb hh
      rw [Store.has, hfalse, Store.sub, if_neg hh]
      rfl
  · by_cases hh : dbHas s.db k = true
    · rw [Store.unsub, if_pos hh, Store.has, hh]
      rfl
    · have hfalse : dbHas s.db k = false := by
        cases hb : dbHas s.db k
        · rfl
        · exact absurd hb hh
      rw [Store.unsub, if_neg hh, Store.has, hfalse]
      rfl
  · intro hhas hinv hnosub
    have hh : dbHas s.db k = true := hhas
    have hsub0 : subInKcb s.pubsub src (JsVal.str k) = false := by
      rw [← has_eq_subInKcb _ _ _ hinv]
      exact hnosub
    have hks0 : keyInSrcKs s.pubsub src (JsVal.str k) = false :=
      (hinv src (JsVal.str k)).symm.trans hsub0
    have hps : s.pubsub.unsub src (JsVal.str k) = s.pubsub := by
      cases hm : mapGet s.pubsub.k_src_cb (JsVal.str k) with
      | none =>
        cases hn : mapGet s.pubsub.src_ks src with
        | none =>
          simp only [PubSub.unsub, hm, hn]
        | some ks =>
          have hnotin : JsVal.str k ∉ ks := by
            rw [keyInSrcKs, hn] at hks0
            simpa using hks0
          simp only [PubSub.unsub, hm, hn,
            setDelete_of_not_mem ks (JsVal.str k) hnotin,
            mapSet_self _ _ _ hn]
      | some m =>
        have hnosrc : mapHas m src = false := by
          rw [subInKcb, hm] at hsub0
          exact hsub0
        cases hn : mapGet s.pubsub.src_ks src with
        | none =>
          simp only [PubSub.unsub, hm, hn,
            mapDelete_of_not_has m src hnosrc, mapSet_self _ _ _ hm]
        | some ks =>
          have hnotin : JsVal.str k ∉ ks := by
            rw [keyInSrcKs, hn] at hks0
            simpa using hks0
          simp only [PubSub.unsub, hm, hn,
            mapDelete_of_not_has m src hnosrc, mapSet_self _ _ _ hm,
            setDelete_of_not_mem ks (JsVal.str k) hnotin,
            mapSet_self _ _ _ hn]
    rw [Store.unsub, if_pos hh, hps]
  · intro hhas s' tr h
    have hh : dbHas s.db k = true := hhas
    rw [Store.unsub, if_pos hh] at h
    injection h with h2
    injection h2 with ha hb
    subst ha
    show PubSub.has (s.pubsub.unsub src (JsVal.str k)) src (JsVal.str k) =
      false
    rw [has_unfold, keyInSrcKs_unsub, if_pos ⟨rfl, rfl⟩]
    simp

/-- Witness for `C7_sub_unsub_guard`: on `storeA` (key `"a"` present, no
subscriptions) `sub` succeeds and `unsub` is a strict no-op; on `storeASub`
(subscription `("s","a")` present) `unsub` removes it. -/
theorem C7_sub_unsub_guard_witness :
    (Store.sub storeA "s" "a" (7 : Nat) false).isOk = true ∧
    Store.unsub storeA "s" "a" = Except.ok (storeA, []) ∧
    Store.hasSub storeASubUnsub "s" "a" = false := by
  refine ⟨?_, ?_, ?_⟩
  · have h := (C7_sub_unsub_guard storeA "s" "a").1 (7 : Nat) false
    rw [h]
    decide
  · exact (C7_sub_unsub_guard storeA "s" "a").2.2.1 (by decide)
      (fun _ _ => rfl) (by decide)
  · exact (C7_sub_unsub_guard storeASub "s" "a").2.2.2 (by decide)
      storeASubUnsub [] rfl

theorem map_eta (l : List (String × α)) : (l.map fun e => (e.1, e.2)) = l := by
  rw [List.map_congr_left fun e _ => Prod.mk.eta]
  exact List.map_id l

/-- C8: `find()` with no selector (and the default identity mapper) yields
every current entry exactly once, in insertion order; `find(pattern)` with a
RegExp selector yields exactly the entries whose keys pass the pattern's
test — the pattern sees the key only; `find(p, f)` with a predicate selector
applies the mapper to each value first, and the predicate decides inclusion
on the `(key, mappedValue)` pair; and `findOne(q)` returns the value of the
first matching entry in this iteration order, or the absent marker
(`undefined`, modelled `none`) when nothing matches — it is total, never
raising an error. -/
theorem C8_find_query_spec (s : Store α γ) (f : α → β)
    (tst : String → Bool) (p : String × β → Bool) (q : Query α) :
    drainFind s.db (normQ Query.undef) (fun v => v) 0 = dbEntries s.db ∧
    drainFind s.db (normQ (Query.regex tst)) f 0 =
      (((dbEntries s.db).map fun e => (e.1, f e.2)).filter
        fun kv => tst kv.1) ∧
    drainFind s.db (normQ (Query.pred p)) f 0 =
      ((dbEntries s.db).map fun e => (e.1, f e.2)).filter p ∧
    Store.findOne s q =
      ((matchedEntries s.db (normQ q) (fun v => v)).head?).map Prod.snd := by
  refine ⟨?_, ?_, ?_, ?_⟩
  · rw [drainFind_eq_matchedEntries, List.drop_zero]
    show (((dbEntries s.db).map fun e => (e.1, e.2)).filter
      fun _ => true) = dbEntries s.db
    rw [List.filter_true, map_eta]
  · rw [drainFind_eq_matchedEntries, List.drop_zero]
    rfl
  · rw [drainFind_eq_matchedEntries, List.drop_zero]
    rfl
  · have h := findNext_head s.db (normQ q) (fun v => v) 0
    rw [List.drop_zero] at h
    rw [Store.findOne, ← h, Option.map_map]
    rfl
